import Mathlib

/-!
Verification of the weekly order-forecasting backend (`src/main.py`,
`src/create_tables.py`) against its natural-language specification.

Shallow embedding conventions:
* Calendar dates are modelled as `Int` day numbers where day 0 is a Monday,
  so `d % 7` is exactly Python's `date.weekday()` (Monday = 0 … Sunday = 6).
* A reference instant is a date together with seconds since midnight.
* Database tables are modelled as lists of rows; SQL statements become the
  corresponding list operations.
* Python exceptions are modelled with `Except`; a `try`/`except` block becomes
  a `match` on the `Except` value at the position of the block.
-/

/-- A point in time: a calendar date (day number, epoch day 0 is a Monday)
and the number of seconds since that date's midnight.  Models the
`reference_datetime` of `calculate_forecast` after conversion to UTC. -/
structure Instant where
  day : Int
  sec : Nat
deriving DecidableEq, Repr

/-- `main.py` line 201: `last_sunday = today - timedelta(days=(today.weekday() + 1) % 7)`,
the most recent Sunday at or before `today`. -/
def lastSundayOf (today : Int) : Int :=
  today - ((today % 7 + 1) % 7)

/-- `main.py` lines 196–212, the cutoff-date computation inside
`calculate_forecast`: if today is a Sunday, the week ending today counts
only from 00:00:01 onwards (before that instant fall back one week);
otherwise use the most recent Sunday at or before today. -/
def cutoffDate (t : Instant) : Int :=
  let today := t.day
  let last_sunday := lastSundayOf today
  if today % 7 = 6 then
    if 1 ≤ t.sec then today else today - 7
  else
    last_sunday

/-- The spec's notion (§4.2) of the week ending on Sunday `s` being fully
elapsed ("closed") at instant `t`, including the midnight grace rule: the
week is closed once `t`'s date is past `s`, or on `s` itself once the fixed
instant 00:00:01 past midnight has elapsed. -/
def weekClosedAt (s : Int) (t : Instant) : Prop :=
  s < t.day ∨ (s = t.day ∧ 1 ≤ t.sec)

instance (s : Int) (t : Instant) : Decidable (weekClosedAt s t) := by
  unfold weekClosedAt; infer_instance

/-- C1: `cutoffDate` returns the end date (a Sunday) of the most recently
fully elapsed week: the returned date's week is closed at the reference
instant, no later Sunday's week is, and on a Sunday the week ending that day
counts as closed exactly from 00:00:01 onwards, with fallback to the prior
week's end before that instant. -/
theorem cutoff_returns_most_recent_closed_week (t : Instant) :
    (cutoffDate t) % 7 = 6 ∧
    weekClosedAt (cutoffDate t) t ∧
    (∀ s : Int, s % 7 = 6 → weekClosedAt s t → s ≤ cutoffDate t) ∧
    (t.day % 7 = 6 →
      (1 ≤ t.sec → cutoffDate t = t.day) ∧
      (t.sec = 0 → cutoffDate t = t.day - 7)) := by
  unfold cutoffDate lastSundayOf weekClosedAt
  rcases t with ⟨d, s⟩
  simp only
  split
  · next hsun =>
    split
    · next hsec =>
      refine ⟨hsun, Or.inr ⟨rfl, hsec⟩, ?_, fun _ => ⟨fun _ => rfl, fun h0 => ?_⟩⟩
      · rintro x hx (h | ⟨rfl, _⟩) <;> omega
      · omega
    · next hsec =>
      refine ⟨by omega, Or.inl (by omega), ?_, fun _ => ⟨fun h1 => by omega, fun _ => rfl⟩⟩
      rintro x hx (h | ⟨rfl, hs⟩) <;> omega
  · next hsun =>
    refine ⟨by omega, Or.inl (by omega), ?_, fun h => absurd h hsun⟩
    rintro x hx (h | ⟨rfl, _⟩)
    · omega
    · exact absurd hx hsun

/-- Witness for C1 at concrete instants: day 8 is a Monday 00:00:00, so the
Sunday day 6 is closed there and bounded by the cutoff; day 13 is a Sunday at
00:00:01, where the cutoff is day 13 itself. -/
theorem cutoff_returns_most_recent_closed_week_witness :
    (6 : Int) ≤ cutoffDate ⟨8, 0⟩ ∧ cutoffDate ⟨13, 1⟩ = 13 :=
  ⟨(cutoff_returns_most_recent_closed_week ⟨8, 0⟩).2.2.1 6 (by decide)
      (Or.inl (by decide)),
   ((cutoff_returns_most_recent_closed_week ⟨13, 1⟩).2.2.2 (by decide)).1 (by decide)⟩

/-! ## OrderStore and the status guard (`update_order_status`, `main.py` lines 625–693) -/

/-- A row of the `orders` table (`create_tables.py` lines 25–36).  Field names
follow the DDL; `order_date` is a day number, `status_last_changed_at` an
instant (absent until the first guarded status change). -/
structure OrderRow where
  order_id : Nat
  user_id : Nat
  order_status : String
  order_date : Int
  old_status : Option String
  status_last_changed_at : Option Instant
deriving DecidableEq, Repr

/-- `main.py` line 666: `week_start_date = order_date - timedelta(days=order_date.weekday())`,
the Monday starting the week that contains `d`. -/
def weekStartDate (d : Int) : Int := d - d % 7

/-- `main.py` line 667: `week_end_date = week_start_date + timedelta(days=6)`,
the Sunday ending the week that contains `d`. -/
def weekEndDate (d : Int) : Int := weekStartDate d + 6

/-- Outcome of `update_order_status`, one constructor per return site of
`main.py` lines 633–689. -/
inductive UpdateOutcome where
  | missingParams
  | notFound
  | missingDate
  | forbidden
  | unchanged
  | updated (fromStatus toStatus : String)
  | incompleteWeek
deriving DecidableEq, Repr

/-- HTTP status code attached to each outcome's `jsonify(...), code` return in
`main.py` lines 633–689. -/
def httpStatusOf : UpdateOutcome → Nat
  | .missingParams => 400
  | .notFound => 404
  | .missingDate => 500
  | .forbidden => 403
  | .unchanged => 200
  | .updated _ _ => 200
  | .incompleteWeek => 200

/-- The `"status"` field of the JSON body returned for each outcome
(`main.py` lines 633–689): errors carry `"ERROR"`, the week-lock soft
rejection carries `"INFO"`, the rest `"OK"`. -/
def jsonStatusOf : UpdateOutcome → String
  | .missingParams => "ERROR"
  | .notFound => "ERROR"
  | .missingDate => "ERROR"
  | .forbidden => "ERROR"
  | .unchanged => "OK"
  | .updated _ _ => "OK"
  | .incompleteWeek => "INFO"

/-- `update_order_status` (`main.py` lines 644–689) from the point where the
order row has been fetched: permission check, no-change check, then the
week-lock check; on a closed week the row is mutated (new status, previous
status recorded, change timestamp set), otherwise it is returned untouched.
Returns the outcome together with the resulting order row. -/
def updateOrderStatus (ord : OrderRow) (requester : Nat) (newStatus : String)
    (today : Int) (now : Instant) : UpdateOutcome × OrderRow :=
  if requester ≠ ord.user_id then
    (.forbidden, ord)
  else if newStatus = ord.order_status then
    (.unchanged, ord)
  else if weekEndDate ord.order_date ≤ today then
    (.updated ord.order_status newStatus,
     { ord with
        order_status := newStatus
        old_status := some ord.order_status
        status_last_changed_at := some now })
  else
    (.incompleteWeek, ord)

/-- C3: for an authorized status update with a genuinely new status, an order
whose Monday–Sunday week has not closed (week end date > today) is rejected
as `incompleteWeek` through a success-shaped response (HTTP 200, non-ERROR
body) with the row unmutated, while an order whose week has closed
(week end date ≤ today) gets the new status applied, the prior status stored
in `old_status`, and the change timestamp set. -/
theorem week_lock_guards_status_updates (ord : OrderRow) (requester : Nat)
    (newStatus : String) (today : Int) (now : Instant)
    (hperm : requester = ord.user_id) (hchange : newStatus ≠ ord.order_status) :
    (today < weekEndDate ord.order_date →
      updateOrderStatus ord requester newStatus today now = (.incompleteWeek, ord) ∧
      httpStatusOf .incompleteWeek = 200 ∧ jsonStatusOf .incompleteWeek ≠ "ERROR") ∧
    (weekEndDate ord.order_date ≤ today →
      updateOrderStatus ord requester newStatus today now =
        (.updated ord.order_status newStatus,
         { ord with
            order_status := newStatus
            old_status := some ord.order_status
            status_last_changed_at := some now })) := by
  unfold updateOrderStatus
  rw [if_neg (by simp [hperm]), if_neg hchange]
  refine ⟨fun hopen => ⟨?_, rfl, by decide⟩, fun hclosed => ?_⟩
  · rw [if_neg (by omega)]
  · rw [if_pos hclosed]

/-- Witness for C3: a concrete order dated Wednesday day 2 (week ends Sunday
day 6).  On day 5 the week is open and the update is soft-rejected; on day 6
it is applied and the prior status recorded. -/
theorem week_lock_guards_status_updates_witness :
    (updateOrderStatus ⟨1, 7, "New", 2, none, none⟩ 7 "Shipped" 5 ⟨5, 0⟩ =
      (.incompleteWeek, ⟨1, 7, "New", 2, none, none⟩)) ∧
    (updateOrderStatus ⟨1, 7, "New", 2, none, none⟩ 7 "Shipped" 6 ⟨6, 0⟩ =
      (.updated "New" "Shipped",
       ⟨1, 7, "Shipped", 2, some "New", some ⟨6, 0⟩⟩)) :=
  ⟨((week_lock_guards_status_updates ⟨1, 7, "New", 2, none, none⟩ 7 "Shipped" 5 ⟨5, 0⟩
      rfl (by decide)).1 (by decide)).1,
   (week_lock_guards_status_updates ⟨1, 7, "New", 2, none, none⟩ 7 "Shipped" 6 ⟨6, 0⟩
      rfl (by decide)).2 (by decide)⟩

/-- C10: an authorized update whose new status equals the current status
returns the success-shaped `unchanged` outcome and leaves the order row — in
particular `order_status`, `old_status` and `status_last_changed_at` —
untouched, for every value of `today` (open or closed week), so it never sets
the change timestamp the ChangeTracker counts. -/
theorem unchanged_status_is_noop_before_week_lock (ord : OrderRow)
    (requester : Nat) (newStatus : String) (today : Int) (now : Instant)
    (hperm : requester = ord.user_id) (hsame : newStatus = ord.order_status) :
    updateOrderStatus ord requester newStatus today now = (.unchanged, ord) ∧
    httpStatusOf .unchanged = 200 ∧
    (updateOrderStatus ord requester newStatus today now).2.status_last_changed_at =
      ord.status_last_changed_at := by
  unfold updateOrderStatus
  rw [if_neg (by simp [hperm]), if_pos hsame]
  exact ⟨rfl, rfl, rfl⟩

/-- Witness for C10: re-sending the current status `"New"` on an open week
(day 5 of the order's own week) is a pure no-op. -/
theorem unchanged_status_is_noop_before_week_lock_witness :
    updateOrderStatus ⟨1, 7, "New", 2, none, none⟩ 7 "New" 5 ⟨5, 0⟩ =
      (.unchanged, ⟨1, 7, "New", 2, none, none⟩) :=
  (unchanged_status_is_noop_before_week_lock ⟨1, 7, "New", 2, none, none⟩ 7 "New" 5 ⟨5, 0⟩
      rfl rfl).1

/-! ## Order insertion (`insert_orders`, `main.py` lines 386–512) -/

/-- `INSERT IGNORE INTO orders ...` (`main.py` lines 467–471 and 488–497) for
one row: the `orders` table's `order_id` primary key makes an insert with an
already-present `order_id` a no-op.  Returns the new table contents and
whether a row was actually inserted (the statement's rowcount contribution). -/
def insertIgnore (store : List OrderRow) (o : OrderRow) : List OrderRow × Bool :=
  if store.any (fun r => r.order_id = o.order_id) then
    (store, false)
  else
    (store ++ [o], true)

/-- The single-order insert response (`main.py` lines 500–505): both the
inserted and the duplicate-ignored case return `"status": "OK"` with
HTTP 200, differing only in the message. -/
def singleInsertResponse (inserted : Bool) : String × String × Nat :=
  if inserted then ("OK", "Order inserted successfully.", 200)
  else ("OK", "Order already exists and was ignored.", 200)

/-- C8: inserting an order whose `order_id` is not yet present stores it;
re-inserting any order with the same `order_id` leaves the table unchanged
(the stored order keeps the first insert's fields), and the second insert is
reported as an "already exists / ignored" success (`"OK"`, HTTP 200), never
an error. -/
theorem duplicate_insert_is_ignored_noop (store : List OrderRow)
    (o dup : OrderRow) (hid : dup.order_id = o.order_id)
    (hfresh : ∀ r ∈ store, r.order_id ≠ o.order_id) :
    (insertIgnore store o).2 = true ∧
    insertIgnore (insertIgnore store o).1 dup = ((insertIgnore store o).1, false) ∧
    (insertIgnore store o).1.filter (fun r => r.order_id = o.order_id) = [o] ∧
    singleInsertResponse false = ("OK", "Order already exists and was ignored.", 200) := by
  have hany : store.any (fun r => r.order_id = o.order_id) = false := by
    simp only [List.any_eq_false, decide_eq_true_eq]
    exact hfresh
  unfold insertIgnore
  rw [if_neg (by simp [hany])]
  refine ⟨rfl, ?_, ?_, rfl⟩
  · rw [if_pos (by simp [hid])]
  · rw [List.filter_append]
    simp only [List.filter_cons, List.filter_nil, decide_eq_true_eq]
    rw [List.filter_eq_nil_iff.mpr (by simpa using hfresh)]
    simp

/-- Witness for C8: inserting order 5 into an empty table and then inserting
a conflicting row with the same id leaves exactly the first row stored. -/
theorem duplicate_insert_is_ignored_noop_witness :
    insertIgnore [] ⟨5, 7, "New", 3, none, none⟩ = ([⟨5, 7, "New", 3, none, none⟩], true) ∧
    insertIgnore [⟨5, 7, "New", 3, none, none⟩] ⟨5, 7, "Shipped", 4, none, none⟩ =
      ([⟨5, 7, "New", 3, none, none⟩], false) :=
  ⟨by decide,
   (duplicate_insert_is_ignored_noop [] ⟨5, 7, "New", 3, none, none⟩
      ⟨5, 7, "Shipped", 4, none, none⟩ rfl (by simp)).2.1⟩

/-- A validation error raised by `validate_single_order` /
`parse_and_validate_date` (`main.py` lines 401–447); each message names the
index of the offending order in the bulk list. -/
inductive OrderValidationError where
  | missingFields (index : Nat)
  | invalidDateFormat (index : Nat)
  | futureDate (index : Nat)
deriving DecidableEq, Repr

/-- An order object as received in the request body: which of the required
keys are present, and the result of `dateutil` parsing of its `order_date`
(`none` when unparseable). -/
structure RawOrder where
  has_id : Bool
  has_order_date : Bool
  has_order_status : Bool
  id : Nat
  order_status : String
  parsed_date : Option Int
deriving DecidableEq, Repr

/-- `validate_single_order` (`main.py` lines 429–447): require the keys
`id`, `order_date`, `order_status`; parse the date (`invalidDateFormat` on
failure); reject dates after `now` (`futureDate`); otherwise return the
normalized date. -/
def validateSingleOrder (now : Int) (o : RawOrder) (index : Nat) :
    Except OrderValidationError Int :=
  if ¬(o.has_id && o.has_order_date && o.has_order_status) then
    .error (.missingFields index)
  else
    match o.parsed_date with
    | none => .error (.invalidDateFormat index)
    | some dt => if now < dt then .error (.futureDate index) else .ok dt

/-- The validation loop of the bulk branch (`main.py` lines 457–465),
started at position `index`: validate each order in turn, stopping at the
first failure; on success produce the `values` rows to be written. -/
def validateOrdersFrom (now : Int) (uid : Nat) :
    List RawOrder → Nat → Except OrderValidationError (List OrderRow)
  | [], _ => .ok []
  | o :: rest, index =>
    match validateSingleOrder now o index with
    | .error e => .error e
    | .ok dt =>
      match validateOrdersFrom now uid rest (index + 1) with
      | .error e => .error e
      | .ok rows => .ok (⟨o.id, uid, o.order_status, dt, none, none⟩ :: rows)

/-- Response of the bulk branch of `insert_orders`. -/
inductive BulkResponse where
  | ok (insertedCount : Nat)
  | validationError (e : OrderValidationError)
  | emptyList
deriving DecidableEq, Repr

/-- The bulk branch of `insert_orders` (`main.py` lines 449–479): reject an
empty list; validate every order (returning the first validation error as a
400 response, before any write); only when all are valid run the
`INSERT IGNORE ... executemany`, counting actually-inserted rows. -/
def insertOrdersBulk (store : List OrderRow) (uid : Nat) (now : Int)
    (orders : List RawOrder) : List OrderRow × BulkResponse :=
  if orders.isEmpty then (store, .emptyList)
  else
    match validateOrdersFrom now uid orders 0 with
    | .error e => (store, .validationError e)
    | .ok rows =>
      let final := rows.foldl
        (fun acc r =>
          ((insertIgnore acc.1 r).1, acc.2 + (if (insertIgnore acc.1 r).2 then 1 else 0)))
        (store, 0)
      (final.1, .ok final.2)

/-- `true` exactly on `Except.error`. -/
def isErr : Except ε α → Bool
  | .error _ => true
  | .ok _ => false

theorem validateOrdersFrom_error_of_exists (now : Int) (uid : Nat) :
    ∀ (orders : List RawOrder) (base : Nat),
    (∃ j o, orders.get? j = some o ∧ isErr (validateSingleOrder now o (base + j)) = true) →
    ∃ i o e, orders.get? i = some o ∧ validateSingleOrder now o (base + i) = .error e ∧
      (∀ k o', orders.get? k = some o' → k < i →
        ∃ d, validateSingleOrder now o' (base + k) = .ok d) ∧
      validateOrdersFrom now uid orders base = .error e := by
  intro orders
  induction orders with
  | nil =>
    rintro base ⟨j, o, hget, -⟩
    simp at hget
  | cons o0 rest ih =>
    rintro base ⟨j, o, hget, herr⟩
    cases hv : validateSingleOrder now o0 base with
    | error e =>
      refine ⟨0, o0, e, rfl, by simpa using hv, fun k o' _ hk => absurd hk (by omega), ?_⟩
      simp only [validateOrdersFrom, hv]
    | ok d =>
      have hjpos : ∃ j', j = j' + 1 := by
        rcases j with _ | j'
        · exfalso
          simp only [List.get?_cons_zero, Option.some.injEq] at hget
          subst hget
          rw [Nat.add_zero, hv] at herr
          simp [isErr] at herr
        · exact ⟨j', rfl⟩
      rcases hjpos with ⟨j', rfl⟩
      simp only [List.get?_cons_succ] at hget
      have hshift : base + (j' + 1) = (base + 1) + j' := by omega
      rw [hshift] at herr
      rcases ih (base + 1) ⟨j', o, hget, herr⟩ with ⟨i, o', e, hget', hval, hmin, heq⟩
      refine ⟨i + 1, o', e, by simpa using hget', by rw [show base + (i + 1) = (base + 1) + i by omega]; exact hval, ?_, ?_⟩
      · rintro (_ | k) o'' hget'' hk
        · simp only [List.get?_cons_zero, Option.some.injEq] at hget''
          subst hget''
          exact ⟨d, by rw [Nat.add_zero]; exact hv⟩
        · simp only [List.get?_cons_succ] at hget''
          rw [show base + (k + 1) = (base + 1) + k by omega]
          exact hmin k o'' hget'' (by omega)
      · simp only [validateOrdersFrom, hv, heq]

/-- C9: if any order of a bulk `insertOrders` request fails validation
(missing required key, unparseable date, or future date), the request returns
a validation error naming the offending index — the first failing index, all
earlier entries having validated successfully — and the orders table is left
exactly as it was: no order of the request is written. -/
theorem bulk_insert_all_or_nothing_validation (store : List OrderRow)
    (uid : Nat) (now : Int) (orders : List RawOrder)
    (h : ∃ j o, orders.get? j = some o ∧ isErr (validateSingleOrder now o j) = true) :
    (insertOrdersBulk store uid now orders).1 = store ∧
    ∃ i o e, orders.get? i = some o ∧ validateSingleOrder now o i = .error e ∧
      (∀ k o', orders.get? k = some o' → k < i →
        ∃ d, validateSingleOrder now o' k = .ok d) ∧
      (insertOrdersBulk store uid now orders).2 = .validationError e := by
  have h0 : ∃ j o, orders.get? j = some o ∧
      isErr (validateSingleOrder now o (0 + j)) = true := by
    simpa [Nat.zero_add] using h
  rcases validateOrdersFrom_error_of_exists now uid orders 0 h0 with
    ⟨i, o, e, hget, hval, hmin, heq⟩
  have hne : orders.isEmpty = false := by
    cases orders
    · simp at hget
    · rfl
  unfold insertOrdersBulk
  rw [hne]
  simp only [Bool.false_eq_true, if_false, heq]
  refine ⟨by simp, i, o, e, hget, by simpa using hval,
    fun k o' hk hlt => by simpa using hmin k o' hk hlt, by simp⟩

/-- Witness for C9: a two-element bulk request whose second order has an
unparseable date is rejected with the error naming index 1 and inserts
nothing. -/
theorem bulk_insert_all_or_nothing_validation_witness :
    (insertOrdersBulk [] 7 100
        [⟨true, true, true, 1, "New", some 50⟩,
         ⟨true, true, true, 2, "New", none⟩]).1 = [] ∧
    (insertOrdersBulk [] 7 100
        [⟨true, true, true, 1, "New", some 50⟩,
         ⟨true, true, true, 2, "New", none⟩]).2 =
      .validationError (.invalidDateFormat 1) :=
  ⟨(bulk_insert_all_or_nothing_validation [] 7 100
      [⟨true, true, true, 1, "New", some 50⟩, ⟨true, true, true, 2, "New", none⟩]
      ⟨1, ⟨true, true, true, 2, "New", none⟩, rfl, by decide⟩).1,
   by decide⟩

/-! ## Forecast orchestration (`calculate_forecast`, `main.py` lines 114–384) -/

/-- `main.py` line 216: `prophet_df = prophet_df[prophet_df['ds'].dt.date <= cutoff_date]` —
the usable history: the weekly bucket end dates at or before the cutoff. -/
def usableHist (weeklyDates : List Int) (cutoff : Int) : List Int :=
  weeklyDates.filter (fun d => d ≤ cutoff)

/-- Outcome of the data-sufficiency checks of `calculate_forecast`:
the error returns of lines 179–185 and 220–222, or proceeding to the
Prophet fit with the usable history. -/
inductive RunOutcome where
  | noData
  | insufficientHistory
  | noCompleteWeeks
  | proceed (hist : List Int)
deriving DecidableEq, Repr

/-- The check sequence of `calculate_forecast` on the aggregated weekly
bucket end dates (`main.py` lines 179–222, in source order): empty series →
`noData` (line 181); fewer than 2 buckets **before any cutoff filtering** →
`insufficientHistory` (line 185); then drop buckets beyond the cutoff
(line 216) and fail with `noCompleteWeeks` if nothing remains (line 222);
otherwise the fit proceeds on the filtered history. -/
def forecastChecks (weeklyDates : List Int) (cutoff : Int) : RunOutcome :=
  if weeklyDates.isEmpty then .noData
  else if weeklyDates.length < 2 then .insufficientHistory
  else
    let hist := usableHist weeklyDates cutoff
    if hist.isEmpty then .noCompleteWeeks
    else .proceed hist

/-- C4 counterexample: two weekly buckets (Sundays day 6 and day 13) with
cutoff day 6 leave exactly one usable bucket after the cutoff discard, yet
`calculate_forecast` proceeds to the forecasting engine with that single
bucket instead of failing with `insufficientHistory`: the `< 2` check runs
before, not after, the cutoff discard. -/
theorem forecast_checks_single_usable_bucket_proceeds :
    forecastChecks [6, 13] 6 = .proceed [6] ∧
    usableHist [6, 13] 6 = [6] ∧
    forecastChecks [6, 13] 6 ≠ .insufficientHistory := by decide

/-- C4 amended: the orchestrator checks `insufficientHistory` on the full
aggregated series before discarding beyond-cutoff buckets — a nonempty series
of fewer than 2 buckets fails with `insufficientHistory`; with at least 2
total buckets it discards beyond-cutoff buckets, fails `noCompleteWeeks`
only if none remain, and proceeds even when a single usable bucket remains. -/
theorem forecast_checks_order_of_checks (weeklyDates : List Int) (cutoff : Int) :
    (weeklyDates ≠ [] → weeklyDates.length < 2 →
      forecastChecks weeklyDates cutoff = .insufficientHistory) ∧
    (2 ≤ weeklyDates.length → usableHist weeklyDates cutoff = [] →
      forecastChecks weeklyDates cutoff = .noCompleteWeeks) ∧
    (2 ≤ weeklyDates.length → ∀ d, usableHist weeklyDates cutoff = [d] →
      forecastChecks weeklyDates cutoff = .proceed [d]) := by
  refine ⟨fun hne hlt => ?_, fun hlen hfil => ?_, fun hlen d hfil => ?_⟩
  · unfold forecastChecks
    rw [if_neg (by simp [hne]), if_pos hlt]
  · have hne : weeklyDates ≠ [] := by
      intro h; subst h; simp at hlen
    unfold forecastChecks
    rw [if_neg (by simp [hne]), if_neg (by omega)]
    simp [hfil]
  · have hne : weeklyDates ≠ [] := by
      intro h; subst h; simp at hlen
    unfold forecastChecks
    rw [if_neg (by simp [hne]), if_neg (by omega)]
    simp [hfil]

/-- Witness for the amended C4 at the counterexample's input. -/
theorem forecast_checks_order_of_checks_witness :
    forecastChecks [6, 13] 6 = .proceed [6] :=
  (forecast_checks_order_of_checks [6, 13] 6).2.2 (by decide) 6 (by decide)

/-- `main.py` lines 243–263 restricted to the dates involved:
`make_future_dataframe(periods=4, freq='W-SUN')` extends the fitted history
by four further Sundays, the prediction frame keeps the history rows,
line 258 keeps only rows strictly after the cutoff, and line 263 takes the
first four — yielding the week-end dates of the returned payload entries. -/
def futureForecastDates (hist : List Int) (cutoff : Int) : List Int :=
  match hist.getLast? with
  | none => []
  | some lastH =>
    ((hist ++ [lastH + 7, lastH + 14, lastH + 21, lastH + 28]).filter
        (fun d => cutoff < d)).take 4

/-- `main.py` lines 300–307: `last_forecast_date_db` is parsed from
`output[-1]['week_end']` — the week-end date of the **last payload entry** —
falling back to the current date when `output` is empty. -/
def cacheForecastDate (hist : List Int) (cutoff : Int) (fallback : Int) : Int :=
  match (futureForecastDates hist cutoff).getLast? with
  | some d => d
  | none => fallback

/-- A row of the `forecast_cache` table (`create_tables.py` lines 38–47),
omitting the auto-increment surrogate key. -/
structure CacheRow where
  user_id : Nat
  forecast_date : Int
  forecast_data : String
  created_at : Instant
deriving DecidableEq, Repr

/-- The `forecast_cache` write of `calculate_forecast` (`main.py`
lines 345–377): `SELECT` the tenant's row; `UPDATE ... WHERE user_id` if one
exists, else `INSERT`. -/
def upsertCache (cache : List CacheRow) (uid : Nat) (fd : Int)
    (payload : String) (now : Instant) : List CacheRow :=
  if cache.any (fun r => r.user_id = uid) then
    cache.map (fun r =>
      if r.user_id = uid then
        { r with forecast_date := fd, forecast_data := payload, created_at := now }
      else r)
  else
    cache ++ [⟨uid, fd, payload, now⟩]

/-- Number of `forecast_cache` rows belonging to a tenant. -/
def countCacheRows (uid : Nat) (cache : List CacheRow) : Nat :=
  (cache.filter (fun r => r.user_id = uid)).length


theorem filter_map_updateRow_other (u uid : Nat) (fd : Int) (payload : String)
    (now : Instant) (hne : u ≠ uid) : ∀ cache : List CacheRow,
    (cache.map (fun r =>
      if r.user_id = u then
        { r with forecast_date := fd, forecast_data := payload, created_at := now }
      else r)).filter (fun r => r.user_id = uid) =
      cache.filter (fun r => r.user_id = uid) := by
  intro cache
  induction cache with
  | nil => rfl
  | cons r rest ih =>
    obtain ⟨ru, rfd, rda, rc⟩ := r
    by_cases hr : ru = u
    · subst hr
      simp only [List.map_cons, List.filter_cons, if_pos rfl]
      rw [if_neg (by simp [hne]), if_neg (by simp [hne]), ih]
    · simp only [List.map_cons, List.filter_cons, if_neg hr]
      by_cases hruid : ru = uid
      · rw [if_pos (by simp [hruid]), if_pos (by simp [hruid]), ih]
      · rw [if_neg (by simp [hruid]), if_neg (by simp [hruid]), ih]

theorem filter_map_updateRow_self (uid : Nat) (fd : Int) (payload : String)
    (now : Instant) : ∀ cache : List CacheRow,
    (cache.filter (fun r => r.user_id = uid)).length ≤ 1 →
    cache.any (fun r => r.user_id = uid) = true →
    (cache.map (fun r =>
      if r.user_id = uid then
        { r with forecast_date := fd, forecast_data := payload, created_at := now }
      else r)).filter (fun r => r.user_id = uid) =
      [⟨uid, fd, payload, now⟩] := by
  intro cache
  induction cache with
  | nil => intro _ hany; simp at hany
  | cons r rest ih =>
    intro hone hany
    by_cases hr : r.user_id = uid
    · have hrest : rest.filter (fun r => r.user_id = uid) = [] := by
        rw [List.filter_cons, if_pos (by simp [hr])] at hone
        simp only [List.length_cons] at hone
        exact List.length_eq_zero.mp (by omega)
      have hrestid : ∀ x ∈ rest, ¬ x.user_id = uid := by
        intro x hx hxid
        have hmem : x ∈ rest.filter (fun r => r.user_id = uid) :=
          List.mem_filter.mpr ⟨hx, by simp [hxid]⟩
        rw [hrest] at hmem
        simp at hmem
      have hmap : rest.map (fun r =>
          if r.user_id = uid then
            { r with forecast_date := fd, forecast_data := payload, created_at := now }
          else r) = rest := by
        conv_rhs => rw [← List.map_id rest]
        exact List.map_congr_left fun x hx => by simp [if_neg (hrestid x hx)]
      obtain ⟨ru, rfd, rda, rc⟩ := r
      simp only at hr
      simp [List.map_cons, List.filter_cons, hmap, hrest, hr]
    · have hany' : rest.any (fun r => r.user_id = uid) = true := by
        simp only [List.any_cons] at hany
        rcases Bool.or_eq_true_iff.mp hany with h | h
        · exact absurd (of_decide_eq_true h) hr
        · exact h
      have hone' : (rest.filter (fun r => r.user_id = uid)).length ≤ 1 := by
        rw [List.filter_cons, if_neg (by simp [hr])] at hone
        exact hone
      simp only [List.map_cons, List.filter_cons]
      rw [if_neg hr, if_neg (by simp [hr])]
      exact ih hone' hany'

theorem filter_upsertCache_other (cache : List CacheRow) (u uid : Nat)
    (fd : Int) (payload : String) (now : Instant) (hne : u ≠ uid) :
    (upsertCache cache u fd payload now).filter (fun r => r.user_id = uid) =
      cache.filter (fun r => r.user_id = uid) := by
  unfold upsertCache
  split
  · exact filter_map_updateRow_other u uid fd payload now hne cache
  · rw [List.filter_append]
    simp [hne]

theorem filter_upsertCache_self (cache : List CacheRow) (uid : Nat)
    (fd : Int) (payload : String) (now : Instant)
    (hone : countCacheRows uid cache ≤ 1) :
    (upsertCache cache uid fd payload now).filter (fun r => r.user_id = uid) =
      [⟨uid, fd, payload, now⟩] := by
  unfold countCacheRows at hone
  unfold upsertCache
  split
  · next hany => exact filter_map_updateRow_self uid fd payload now cache hone hany
  · next hany =>
    have hfil : cache.filter (fun r => r.user_id = uid) = [] := by
      rw [List.filter_eq_nil_iff]
      intro a ha
      simp only [List.any_eq_true, decide_eq_true_eq] at hany
      simp only [decide_eq_true_eq]
      exact fun h => hany ⟨a, ha, h⟩
    rw [List.filter_append, hfil]
    simp

/-- The cache write performed by one successful forecast run (the arguments
of the `forecast_cache` upsert in `main.py` lines 345–377): the tenant, the
`last_forecast_date_db` value, the payload JSON and the write time.  Each
recompute trigger (manual, threshold, calendar, or read-through miss) that
succeeds ends in exactly this write. -/
structure RunSpec where
  uid : Nat
  fd : Int
  payload : String
  now : Instant
deriving DecidableEq, Repr

/-- Sequential application of the cache writes of a sequence of successful
forecast runs (the triggers all funnel through `calculate_forecast`'s
upsert). -/
def applyRuns (cache : List CacheRow) : List RunSpec → List CacheRow
  | [] => cache
  | r :: rs => applyRuns (upsertCache cache r.uid r.fd r.payload r.now) rs

theorem applyRuns_append (xs ys : List RunSpec) : ∀ cache : List CacheRow,
    applyRuns cache (xs ++ ys) = applyRuns (applyRuns cache xs) ys := by
  induction xs with
  | nil => intro cache; rfl
  | cons x xs ih =>
    intro cache
    exact ih (upsertCache cache x.uid x.fd x.payload x.now)

theorem applyRuns_filter_invariant (uid : Nat) (runs : List RunSpec) :
    ∀ cache : List CacheRow, countCacheRows uid cache ≤ 1 →
    countCacheRows uid (applyRuns cache runs) ≤ 1 ∧
    (runs.filter (fun r => r.uid = uid) = [] →
      (applyRuns cache runs).filter (fun row => row.user_id = uid) =
        cache.filter (fun row => row.user_id = uid)) ∧
    (∀ last, (runs.filter (fun r => r.uid = uid)).getLast? = some last →
      (applyRuns cache runs).filter (fun row => row.user_id = uid) =
        [⟨uid, last.fd, last.payload, last.now⟩]) := by
  induction runs using List.reverseRecOn with
  | nil =>
    intro cache h
    exact ⟨h, fun _ => rfl, fun last hl => by simp at hl⟩
  | append_singleton rs r ih =>
    intro cache h
    obtain ⟨hcount, hframe, hlast⟩ := ih cache h
    rw [applyRuns_append]
    by_cases hu : r.uid = uid
    · have hfin : (applyRuns (applyRuns cache rs) [r]).filter
          (fun row => row.user_id = uid) = [⟨uid, r.fd, r.payload, r.now⟩] := by
        show (upsertCache (applyRuns cache rs) r.uid r.fd r.payload r.now).filter
            (fun row => row.user_id = uid) = _
        rw [hu]
        exact filter_upsertCache_self (applyRuns cache rs) uid r.fd r.payload r.now hcount
      refine ⟨?_, ?_, ?_⟩
      · unfold countCacheRows
        rw [hfin]
        simp
      · intro hemp
        exfalso
        rw [List.filter_append] at hemp
        simp [hu] at hemp
      · intro last hl
        rw [List.filter_append] at hl
        have hsingle : List.filter (fun r => r.uid = uid) [r] = [r] := by
          simp [List.filter_cons, hu]
        rw [hsingle, List.getLast?_concat] at hl
        obtain rfl : r = last := by injection hl
        exact hfin
    · have hfr : (applyRuns (applyRuns cache rs) [r]).filter
          (fun row => row.user_id = uid) =
          (applyRuns cache rs).filter (fun row => row.user_id = uid) := by
        show (upsertCache (applyRuns cache rs) r.uid r.fd r.payload r.now).filter
            (fun row => row.user_id = uid) = _
        exact filter_upsertCache_other (applyRuns cache rs) r.uid uid r.fd r.payload r.now hu
      have hfilr : (rs ++ [r]).filter (fun r => r.uid = uid) =
          rs.filter (fun r => r.uid = uid) := by
        rw [List.filter_append]
        simp [hu]
      refine ⟨?_, ?_, ?_⟩
      · unfold countCacheRows
        rw [hfr]
        exact hcount
      · intro hemp
        rw [hfilr] at hemp
        rw [hfr]
        exact hframe hemp
      · intro last hl
        rw [hfilr] at hl
        rw [hfr]
        exact hlast last hl

/-- C5: starting from a cache with no rows, after any finite sequence of
successful recompute triggers the cache holds at most one row for any
tenant; once at least one run for the tenant has happened it holds exactly
one row, and that row carries the forecast date, payload and write time of
the latest run for that tenant — recomputes overwrite the row in place
rather than appending. -/
theorem forecast_cache_one_row_per_tenant (runs : List RunSpec) (uid : Nat) :
    countCacheRows uid (applyRuns [] runs) ≤ 1 ∧
    (∀ last, (runs.filter (fun r => r.uid = uid)).getLast? = some last →
      (applyRuns [] runs).filter (fun row => row.user_id = uid) =
        [⟨uid, last.fd, last.payload, last.now⟩]) ∧
    ((∃ r ∈ runs, r.uid = uid) → countCacheRows uid (applyRuns [] runs) = 1) := by
  obtain ⟨hcount, -, hlast⟩ :=
    applyRuns_filter_invariant uid runs [] (by simp [countCacheRows])
  refine ⟨hcount, hlast, fun ⟨r, hr, hru⟩ => ?_⟩
  have hne : runs.filter (fun r => r.uid = uid) ≠ [] := by
    intro hemp
    have : r ∈ runs.filter (fun r => r.uid = uid) :=
      List.mem_filter.mpr ⟨hr, by simp [hru]⟩
    rw [hemp] at this
    simp at this
  rcases hl : (runs.filter (fun r => r.uid = uid)).getLast? with _ | last
  · exact absurd (List.getLast?_eq_none_iff.mp hl) hne
  · unfold countCacheRows
    rw [hlast last hl]
    rfl

/-- Witness for C5: two successive runs for tenant 1 leave exactly the single
row written by the second run. -/
theorem forecast_cache_one_row_per_tenant_witness :
    countCacheRows 1 (applyRuns [] [⟨1, 10, "a", ⟨10, 0⟩⟩, ⟨1, 20, "b", ⟨20, 0⟩⟩]) = 1 ∧
    (applyRuns [] [⟨1, 10, "a", ⟨10, 0⟩⟩, ⟨1, 20, "b", ⟨20, 0⟩⟩]).filter
        (fun row => row.user_id = 1) = [⟨1, 20, "b", ⟨20, 0⟩⟩] :=
  ⟨(forecast_cache_one_row_per_tenant [⟨1, 10, "a", ⟨10, 0⟩⟩, ⟨1, 20, "b", ⟨20, 0⟩⟩] 1).2.2
      ⟨⟨1, 10, "a", ⟨10, 0⟩⟩, by simp, rfl⟩,
   (forecast_cache_one_row_per_tenant [⟨1, 10, "a", ⟨10, 0⟩⟩, ⟨1, 20, "b", ⟨20, 0⟩⟩] 1).2.1
      ⟨1, 20, "b", ⟨20, 0⟩⟩ (by decide)⟩

/-- The cache effect of one successful `calculate_forecast` run, composed
from the pieces above: the usable history (line 216), the payload's last
week-end date (lines 300–307) and the `forecast_cache` upsert
(lines 345–377). -/
def runCacheUpdate (cache : List CacheRow) (uid : Nat) (weeklyDates : List Int)
    (cutoff fallback : Int) (payload : String) (now : Instant) : List CacheRow :=
  upsertCache cache uid
    (cacheForecastDate (usableHist weeklyDates cutoff) cutoff fallback) payload now

/-- C2 counterexample: a tenant with exactly the two complete weekly buckets
ending Sunday day 6 (week A) and Sunday day 13 (week B), forecast run on
Monday day 14 at 00:00:00 (cutoff = 13 = week B's end).  The run succeeds,
but the cache row's `forecast_date` is day 41 — the week-end of the last
*predicted future* payload entry, four weeks past week B — not week B's end
date 13. -/
theorem cache_forecast_date_not_last_bucket :
    cutoffDate ⟨14, 0⟩ = 13 ∧
    usableHist [6, 13] 13 = [6, 13] ∧
    (usableHist [6, 13] 13).getLast? = some 13 ∧
    runCacheUpdate [] 1 [6, 13] 13 0 "payload" ⟨14, 0⟩ =
      [⟨1, 41, "payload", ⟨14, 0⟩⟩] ∧
    (41 : Int) ≠ 13 := by decide

/-- C2 amended: after a successful run whose usable weekly history ends with
a bucket exactly at the cutoff (week B = the cutoff week), the tenant's
single cache row has `forecast_date` equal to the week-end of the **last
predicted future payload entry** — the cutoff plus 4 weeks (28 days) — not
week B's end date. -/
theorem cache_forecast_date_is_last_payload_week (cache : List CacheRow)
    (uid : Nat) (weeklyDates : List Int) (cutoff fallback : Int)
    (payload : String) (now : Instant)
    (hlast : (usableHist weeklyDates cutoff).getLast? = some cutoff)
    (hone : countCacheRows uid cache ≤ 1) :
    cacheForecastDate (usableHist weeklyDates cutoff) cutoff fallback = cutoff + 28 ∧
    (runCacheUpdate cache uid weeklyDates cutoff fallback payload now).filter
        (fun r => r.user_id = uid) = [⟨uid, cutoff + 28, payload, now⟩] := by
  have hsub : ∀ x ∈ usableHist weeklyDates cutoff, x ≤ cutoff := by
    intro x hx
    have hmem := List.mem_filter.mp hx
    simpa using hmem.2
  have hfut : futureForecastDates (usableHist weeklyDates cutoff) cutoff =
      [cutoff + 7, cutoff + 14, cutoff + 21, cutoff + 28] := by
    unfold futureForecastDates
    rw [hlast]
    show ((usableHist weeklyDates cutoff ++
        [cutoff + 7, cutoff + 14, cutoff + 21, cutoff + 28]).filter
          (fun d => cutoff < d)).take 4 = _
    rw [List.filter_append,
      List.filter_eq_nil_iff.mpr (fun a ha => by simp [Int.not_lt.mpr (hsub a ha)]),
      List.nil_append,
      List.filter_eq_self.mpr (fun a ha => by
        rcases (by simpa using ha :
            a = cutoff + 7 ∨ a = cutoff + 14 ∨ a = cutoff + 21 ∨ a = cutoff + 28)
          with rfl | rfl | rfl | rfl <;> simp),
      List.take_of_length_le (by simp)]
  have hdate : cacheForecastDate (usableHist weeklyDates cutoff) cutoff fallback =
      cutoff + 28 := by
    unfold cacheForecastDate
    rw [hfut,
      show [cutoff + 7, cutoff + 14, cutoff + 21, cutoff + 28] =
        [cutoff + 7, cutoff + 14, cutoff + 21] ++ [cutoff + 28] from rfl,
      List.getLast?_concat]
  refine ⟨hdate, ?_⟩
  unfold runCacheUpdate
  rw [hdate]
  exact filter_upsertCache_self cache uid (cutoff + 28) payload now hone

/-- Witness for the amended C2 at the counterexample's input. -/
theorem cache_forecast_date_is_last_payload_week_witness :
    cacheForecastDate (usableHist [6, 13] 13) 13 0 = 41 ∧
    (runCacheUpdate [] 1 [6, 13] 13 0 "payload" ⟨14, 0⟩).filter
        (fun r => r.user_id = 1) = [⟨1, 41, "payload", ⟨14, 0⟩⟩] := by
  have h := cache_forecast_date_is_last_payload_week [] 1 [6, 13] 13 0 "payload" ⟨14, 0⟩
    (by decide) (by decide)
  exact ⟨h.1.trans (by norm_num), h.2.trans (by norm_num)⟩

/-! ## Accuracy metrics and the performance ledger (`main.py` lines 266–343, 384) -/

/-- The metric computation of `main.py` lines 266–282: on success the triple
`(mae, r2, mape)` of in-sample accuracy values (modelled as rationals); on
any exception in the `try` block all three are set to `None`. -/
def metricsOfRun (computed : Option (ℚ × ℚ × ℚ)) : Option ℚ × Option ℚ × Option ℚ :=
  match computed with
  | some (mae, r2, mape) => (some mae, some r2, some mape)
  | none => (none, none, none)

/-- The value written to a nullable metric column of `forecast_performance`
by the INSERT of `main.py` lines 326–334: `m if m is not None else 0` — the
column always receives a concrete number, never SQL NULL. -/
def storedLedgerValue (m : Option ℚ) : Option ℚ :=
  some (m.getD 0)

/-- What a forecast run leaves behind for the caller and the ledger:
the returned payload (`return {"forecast_data": output}`, line 384, reached
regardless of the metrics outcome) and the three metric column values of the
`forecast_performance` row. -/
structure ForecastRunRecord where
  forecast_data : List Int
  ledger_mae : Option ℚ
  ledger_r2 : Option ℚ
  ledger_mape : Option ℚ
deriving DecidableEq, Repr

/-- Completion of a forecast run (`main.py` lines 266–343 and 384): compute
metrics (or `None` on failure), store the substituted column values, return
the payload unconditionally. -/
def finishForecastRun (output : List Int) (computed : Option (ℚ × ℚ × ℚ)) :
    ForecastRunRecord :=
  let m := metricsOfRun computed
  ⟨output, storedLedgerValue m.1, storedLedgerValue m.2.1, storedLedgerValue m.2.2⟩

/-- C7 counterexample: when metric computation fails, the run does complete
with its payload, but the `forecast_performance` row stores the substitute
value 0 in every metric column — `some 0`, a concrete numeric value, not the
SQL NULL (`none`) the claim requires. -/
theorem failed_metrics_stored_as_zero_not_null :
    finishForecastRun [20, 27, 34, 41] none =
      ⟨[20, 27, 34, 41], some 0, some 0, some 0⟩ ∧
    (some (0 : ℚ)) ≠ none := by
  refine ⟨rfl, by simp⟩

/-- C7 amended: a metric-computation failure never fails the run — the
payload is returned unchanged — and the PerformanceLedger record for such a
run stores the substitute value 0 (not NULL) in each of the MAE, R² and MAPE
columns. -/
theorem metrics_failure_keeps_run_usable (output : List Int)
    (computed : Option (ℚ × ℚ × ℚ)) :
    (finishForecastRun output computed).forecast_data = output ∧
    (computed = none →
      finishForecastRun output computed = ⟨output, some 0, some 0, some 0⟩) := by
  refine ⟨?_, fun hnone => ?_⟩
  · rcases computed with _ | ⟨mae, r2, mape⟩ <;> rfl
  · subst hnone
    rfl

/-- Witness for the amended C7 on a concrete failed-metrics run. -/
theorem metrics_failure_keeps_run_usable_witness :
    finishForecastRun [20] none = ⟨[20], some 0, some 0, some 0⟩ :=
  (metrics_failure_keeps_run_usable [20] none).2 rfl

/-! ## Batch scheduler jobs (`main.py` lines 770–815) -/

/-- `auto_update_forecast_on_monday` (`main.py` lines 797–815): the per-user
loop runs inside a single `try` covering the whole job.  `process u` models
the body for user `u` — `.ok b` is a normal return (`b` = whether a forecast
was produced; `.ok false` is the error-dict path, which only logs), while
`.error e` models an exception raised while processing `u`, which propagates
to the job-level handler (where it is caught and logged) and ends the loop.
The function returns the users whose loop body was entered. -/
def mondayJobProcessed (process : Nat → Except String Bool) :
    List Nat → List Nat
  | [] => []
  | u :: rest =>
    match process u with
    | .ok _ => u :: mondayJobProcessed process rest
    | .error _ => [u]

/-- `auto_update_forecast_based_on_status_changes` (`main.py` lines
770–795): same whole-loop `try` shape, with the threshold gate
`recent_changes >= 5` in front of the per-user recompute
(`count_status_changes_in_last_full_week` catches its own errors and
returns 0, so the gate itself never raises). -/
def intervalJobProcessed (recentChanges : Nat → Nat)
    (process : Nat → Except String Bool) : List Nat → List Nat
  | [] => []
  | u :: rest =>
    if 5 ≤ recentChanges u then
      match process u with
      | .ok _ => u :: intervalJobProcessed recentChanges process rest
      | .error _ => [u]
    else
      u :: intervalJobProcessed recentChanges process rest

/-- C6 counterexample: in a two-tenant batch where processing tenant 1
raises an exception, the Monday job's whole-loop exception handler ends the
batch: tenant 2 is never processed, so a failure on one tenant does prevent
the remaining tenants from being processed. -/
theorem tenant_failure_aborts_monday_batch :
    mondayJobProcessed (fun u => if u = 1 then .error "db failure" else .ok true)
      [1, 2] = [1] ∧
    (2 : Nat) ∉ mondayJobProcessed
      (fun u => if u = 1 then .error "db failure" else .ok true) [1, 2] := by
  refine ⟨rfl, by decide⟩

theorem mondayJobProcessed_abort_mid (process : Nat → Except String Bool)
    (u : Nat) (rest : List Nat) (e : String) (herr : process u = .error e) :
    ∀ front : List Nat, (∀ v ∈ front, ∃ b, process v = .ok b) →
      mondayJobProcessed process (front ++ u :: rest) = front ++ [u] := by
  intro front
  induction front with
  | nil =>
    intro _
    simp only [List.nil_append, mondayJobProcessed, herr]
  | cons v vs ih =>
    intro hok
    obtain ⟨b, hb⟩ := hok v (by simp)
    simp only [List.cons_append, mondayJobProcessed, hb, List.append_eq]
    rw [ih (fun w hw => hok w (by simp [hw]))]

theorem intervalJobProcessed_abort_mid (recentChanges : Nat → Nat)
    (process : Nat → Except String Bool) (u : Nat) (rest : List Nat) (e : String)
    (herr : process u = .error e) (hthr : 5 ≤ recentChanges u) :
    ∀ front : List Nat, (∀ v ∈ front, 5 ≤ recentChanges v → ∃ b, process v = .ok b) →
      intervalJobProcessed recentChanges process (front ++ u :: rest) = front ++ [u] := by
  intro front
  induction front with
  | nil =>
    intro _
    simp only [List.nil_append]
    unfold intervalJobProcessed
    rw [if_pos hthr]
    simp only [herr]
  | cons v vs ih =>
    intro hok
    simp only [List.cons_append]
    unfold intervalJobProcessed
    split
    · next hv =>
      obtain ⟨b, hb⟩ := hok v (by simp) hv
      simp only [hb]
      rw [ih (fun w hw hthw => hok w (by simp [hw]) hthw)]
    · rw [ih (fun w hw hthw => hok w (by simp [hw]) hthw)]

/-- C6 amended: per-tenant failures surfaced as error results (the
`calculate_forecast` error-dict path, `.ok false`) are logged and never
prevent the remaining tenants of either batch job from being processed; but
an exception raised while processing one tenant, although caught and logged
by the job-level handler, aborts the rest of that batch: wherever in the
batch the exception strikes, only the failing tenant's predecessors and the
failing tenant itself are processed, and none of the tenants after it. -/
theorem batch_jobs_catch_result_failures_only (process : Nat → Except String Bool)
    (recentChanges : Nat → Nat) (users : List Nat) :
    ((∀ u ∈ users, ∃ b, process u = .ok b) →
      mondayJobProcessed process users = users ∧
      intervalJobProcessed recentChanges process users = users) ∧
    (∀ front u rest e, users = front ++ u :: rest → process u = .error e →
      ((∀ v ∈ front, ∃ b, process v = .ok b) →
        mondayJobProcessed process users = front ++ [u]) ∧
      (5 ≤ recentChanges u →
        (∀ v ∈ front, 5 ≤ recentChanges v → ∃ b, process v = .ok b) →
        intervalJobProcessed recentChanges process users = front ++ [u])) := by
  constructor
  · intro hok
    induction users with
    | nil => exact ⟨rfl, rfl⟩
    | cons u rest ih =>
      obtain ⟨b, hb⟩ := hok u (by simp)
      obtain ⟨hm, hi⟩ := ih fun v hv => hok v (by simp [hv])
      refine ⟨?_, ?_⟩
      · simp only [mondayJobProcessed, hb, hm]
      · unfold intervalJobProcessed
        split
        · simp only [hb, hi]
        · simp only [hi]
  · rintro front u rest e rfl herr
    exact ⟨fun hok => mondayJobProcessed_abort_mid process u rest e herr front hok,
           fun hthr hok =>
             intervalJobProcessed_abort_mid recentChanges process u rest e herr hthr front hok⟩

/-- Witness for the amended C6: with no exceptions both jobs process all
three tenants; with an exception on the middle tenant 2, both jobs process
tenant 1 (its predecessor) and the failing tenant 2, but never tenant 3. -/
theorem batch_jobs_catch_result_failures_only_witness :
    mondayJobProcessed (fun _ => .ok true) [1, 2, 3] = [1, 2, 3] ∧
    mondayJobProcessed (fun u => if u = 2 then .error "db failure" else .ok true)
      [1, 2, 3] = [1, 2] ∧
    intervalJobProcessed (fun _ => 9)
      (fun u => if u = 2 then .error "db failure" else .ok true)
      [1, 2, 3] = [1, 2] :=
  ⟨(batch_jobs_catch_result_failures_only (fun _ => .ok true) (fun _ => 0)
      [1, 2, 3]).1 (fun _ _ => ⟨true, rfl⟩) |>.1,
   ((batch_jobs_catch_result_failures_only
      (fun u => if u = 2 then .error "db failure" else .ok true) (fun _ => 9)
      [1, 2, 3]).2 [1] 2 [3] "db failure" rfl rfl).1
     (fun v hv => by
        simp only [List.mem_singleton] at hv
        subst hv
        exact ⟨true, rfl⟩),
   ((batch_jobs_catch_result_failures_only
      (fun u => if u = 2 then .error "db failure" else .ok true) (fun _ => 9)
      [1, 2, 3]).2 [1] 2 [3] "db failure" rfl rfl).2 (by decide)
     (fun v hv _ => by
        simp only [List.mem_singleton] at hv
        subst hv
        exact ⟨true, rfl⟩)⟩
